import Mathlib

/-!
Verification development for the BMP280 serial monitor
(`bmp280_x11_gui5.cpp`).

Modelling conventions:
* C++ `float` values are modelled as exact rationals (`Rat`); `time_t`
  is modelled as `Int`.
* The fixed 300-slot `std::array<DataPoint, MAX_POINTS>` backing store of
  `CircularBuffer` is modelled as a function `Nat → DataPoint`; the code
  only ever writes `buffer[head]` with `head < 300` and reads
  `buffer[(head + MAX_POINTS - size + index) % MAX_POINTS]`.
* The lazy smoothing caches (`std::vector<float>` of length 300, zero
  meaning "not yet computed") are modelled as functions `Nat → Rat`.
* `std::string` / raw byte buffers are modelled as `List Char`.
* Library text-to-number conversion (`std::stof`, `istream >> float`,
  `istream >> long`) is modelled by explicit recursive-descent parsers
  over `List Char` with C-locale semantics (optional sign, digits,
  optional fraction, optional exponent); `operator<<` on a float uses the
  stream's default precision 6, i.e. `%g` semantics: the value is rounded
  to 6 significant decimal digits and printed in fixed notation with
  trailing zeros stripped while the decimal exponent lies in [-4, 6), in
  scientific notation otherwise (`ratPrint6` below); `operator<<` on
  `time_t` prints the integer exactly.
-/

def MAX_POINTS : Nat := 300

def BUFFER_SIZE : Nat := 256

def RECONNECT_TIMEOUT : Int := 5

def max_reconnect_attempts : Nat := 10

/-- One sample: `struct DataPoint { float temperature; float pressure; time_t timestamp; }`. -/
structure DataPoint where
  temperature : Rat
  pressure : Rat
  timestamp : Int
deriving DecidableEq, Repr, Inhabited

/-- State of `class CircularBuffer`: backing array, ring head, occupancy and
the two mutable smoothing caches. -/
structure CircularBuffer where
  buffer : Nat → DataPoint
  head : Nat
  size : Nat
  temp_cache : Nat → Rat
  press_cache : Nat → Rat

/-- The default-constructed buffer (`head = 0`, `size = 0`, caches zeroed). -/
def CircularBuffer.empty : CircularBuffer :=
  { buffer := fun _ => default
    head := 0
    size := 0
    temp_cache := fun _ => 0
    press_cache := fun _ => 0 }

/-- `CircularBuffer::push`: write at `head`, advance `head` mod 300, grow
`size` up to 300, zero both caches. -/
def CircularBuffer.push (b : CircularBuffer) (point : DataPoint) : CircularBuffer :=
  { buffer := Function.update b.buffer b.head point
    head := (b.head + 1) % MAX_POINTS
    size := if b.size < MAX_POINTS then b.size + 1 else b.size
    temp_cache := fun _ => 0
    press_cache := fun _ => 0 }

/-- `CircularBuffer::get_size`. -/
def CircularBuffer.get_size (b : CircularBuffer) : Nat := b.size

/-- The logical-to-physical index map `(head + MAX_POINTS - size + index) % MAX_POINTS`
used by `operator[]` and `smooth_value`. -/
def CircularBuffer.phys (b : CircularBuffer) (index : Nat) : Nat :=
  (b.head + MAX_POINTS - b.size + index) % MAX_POINTS

/-- `CircularBuffer::operator[]`: throws (`none`) exactly when the buffer is
empty, otherwise returns the slot at the wrapped physical position.  Note the
source performs no `index ≥ size` check. -/
def CircularBuffer.atIdx (b : CircularBuffer) (index : Nat) : Option DataPoint :=
  if b.size = 0 then none else some (b.buffer (b.phys index))

/-- `CircularBuffer::clear`. -/
def CircularBuffer.clear (b : CircularBuffer) : CircularBuffer :=
  { b with head := 0, size := 0, temp_cache := fun _ => 0, press_cache := fun _ => 0 }

/-- Raw field read used inside `smooth_value`'s averaging loop. -/
def CircularBuffer.rawVal (b : CircularBuffer) (is_temp : Bool) (i : Nat) : Rat :=
  if is_temp then (b.buffer (b.phys i)).temperature else (b.buffer (b.phys i)).pressure

/-- The logical indices visited by `smooth_value`'s loop:
`max(0, index - window/2)` up to `min(size - 1, index + window/2)`
(the `max` with 0 is truncated `Nat` subtraction). -/
def CircularBuffer.windowIdxs (b : CircularBuffer) (index window : Nat) : List Nat :=
  List.range' (index - window / 2) (min (b.size - 1) (index + window / 2) + 1 - (index - window / 2))

/-- `CircularBuffer::smooth_value` (the source calls it with the default
`window = 5`): returns 0 on an empty buffer, clamps `index` to `size - 1`,
and serves the per-index cache, computing the clipped centered average on a
cache miss (a cached value of exactly 0 is indistinguishable from "not
computed" and is recomputed).  Returns the value together with the updated
buffer (the caches are `mutable` in the source). -/
def CircularBuffer.smooth_value (b : CircularBuffer) (is_temp : Bool) (index window : Nat) :
    Rat × CircularBuffer :=
  if b.size = 0 then (0, b)
  else
    let idx := min index (b.size - 1)
    let cache := if is_temp then b.temp_cache else b.press_cache
    if cache idx = 0 then
      let idxs := b.windowIdxs idx window
      let sum := (idxs.map (b.rawVal is_temp)).sum
      let count := idxs.length
      let v := if 0 < count then sum / (count : Rat) else b.rawVal is_temp idx
      if is_temp then (v, { b with temp_cache := Function.update b.temp_cache idx v })
      else (v, { b with press_cache := Function.update b.press_cache idx v })
    else (cache idx, b)

/-- A sequence of `push` calls. -/
def pushList (b : CircularBuffer) (xs : List DataPoint) : CircularBuffer :=
  xs.foldl CircularBuffer.push b

/-- The centered clipped moving average that the specification describes for
`smoothed(kind, i, window)`: the arithmetic mean of the raw field values at
logical indices `max(0, i - window/2) … min(size - 1, i + window/2)`. -/
def CircularBuffer.smoothFormula (b : CircularBuffer) (is_temp : Bool) (index window : Nat) : Rat :=
  ((b.windowIdxs index window).map (b.rawVal is_temp)).sum / ((b.windowIdxs index window).length : Rat)

/-- Cache coherence: every nonzero cache entry below `size` holds exactly the
value of the window-5 smoothing formula (5 is the only window the source ever
uses).  Every state the program reaches satisfies this: `push` and `clear`
zero both caches and `smooth_value` only stores formula values. -/
def cacheOK (b : CircularBuffer) : Prop :=
  ∀ j, j < b.size →
    (b.temp_cache j = 0 ∨ b.temp_cache j = b.smoothFormula true j 5) ∧
    (b.press_cache j = 0 ∨ b.press_cache j = b.smoothFormula false j 5)

/-! ### Text scanning primitives (C locale) -/

/-- C-locale decimal digit test (`'0'` … `'9'`). -/
def isDig (c : Char) : Bool := decide (48 ≤ c.toNat ∧ c.toNat ≤ 57)

/-- C-locale `isspace`. -/
def isWs (c : Char) : Bool :=
  decide (c = ' ' ∨ c = '\t' ∨ c = '\n' ∨ c = '\x0b' ∨ c = '\x0c' ∨ c = '\r')

/-- Numeric value of a digit character. -/
def charVal (c : Char) : Nat := c.toNat - 48

/-- The character for a digit value. -/
def digitChar (n : Nat) : Char :=
  match n with
  | 0 => '0' | 1 => '1' | 2 => '2' | 3 => '3' | 4 => '4'
  | 5 => '5' | 6 => '6' | 7 => '7' | 8 => '8' | _ => '9'

/-- Value of a most-significant-first digit string. -/
def ofDigitChars (l : List Char) : Nat :=
  l.foldl (fun a c => 10 * a + charVal c) 0

/-- Optional leading sign, as consumed by `strtod` / `istream` extraction:
returns (negative?, remaining input). -/
def parse_sign (s : List Char) : Bool × List Char :=
  if s.head? = some '-' then (true, s.tail)
  else if s.head? = some '+' then (false, s.tail)
  else (false, s)

/-- Mantissa of a C-locale decimal float: digits, optional point, digits;
at least one digit overall.  Returns the exact rational value and the
unconsumed input. -/
def parse_mantissa (s : List Char) : Option (Rat × List Char) :=
  let ip := s.takeWhile isDig
  let s2 := s.dropWhile isDig
  if s2.head? = some '.' then
    let r := s2.tail
    let fp := r.takeWhile isDig
    let s3 := r.dropWhile isDig
    if ip.isEmpty && fp.isEmpty then none
    else some (((ofDigitChars ip : Nat) : Rat) + ((ofDigitChars fp : Nat) : Rat) / (10 : Rat) ^ fp.length, s3)
  else if ip.isEmpty then none
  else some (((ofDigitChars ip : Nat) : Rat), s2)

/-- Optional exponent part `e[±]digits`: consumed only when at least one
exponent digit follows (otherwise `strtod` leaves the `e` unconsumed). -/
def parse_exponent (v : Rat) (s : List Char) : Rat × List Char :=
  if s.head? = some 'e' ∨ s.head? = some 'E' then
    let sg := parse_sign s.tail
    let ds := sg.2.takeWhile isDig
    if ds.isEmpty then (v, s)
    else
      (if sg.1 then v / (10 : Rat) ^ ofDigitChars ds else v * (10 : Rat) ^ ofDigitChars ds,
       sg.2.dropWhile isDig)
  else (v, s)

/-- C-locale decimal float extraction (the behaviour shared by `std::stof`
and `istream >> float` on the inputs this program produces and consumes):
skip whitespace, optional sign, mantissa, optional exponent.  `none` when no
conversion is possible. -/
def parse_float (s : List Char) : Option (Rat × List Char) :=
  let sg := parse_sign (s.dropWhile isWs)
  match parse_mantissa sg.2 with
  | none => none
  | some (v, s3) =>
    let er := parse_exponent v s3
    some ((if sg.1 then -er.1 else er.1), er.2)

/-- `istream >> char`: skip whitespace, take one character. -/
def parse_char (s : List Char) : Option (Char × List Char) :=
  match s.dropWhile isWs with
  | [] => none
  | c :: r => some (c, r)

/-- `istream >> (integer)`: skip whitespace, optional sign, at least one
digit. -/
def parse_int (s : List Char) : Option (Int × List Char) :=
  let sg := parse_sign (s.dropWhile isWs)
  let ds := sg.2.takeWhile isDig
  if ds.isEmpty then none
  else
    some ((if sg.1 then -((ofDigitChars ds : Nat) : Int) else ((ofDigitChars ds : Nat) : Int)),
          sg.2.dropWhile isDig)

/-! ### Exact decimal printing of rationals (model of `out << float` and
`out << time_t`) -/

/-- Multiplicity of 2 in `n` (structural on a fuel bound of `n` itself). -/
def padic2Aux (fuel n : Nat) : Nat :=
  match fuel with
  | 0 => 0
  | fuel + 1 => if 1 < n ∧ n % 2 = 0 then padic2Aux fuel (n / 2) + 1 else 0

/-- Multiplicity of 2 in `n`. -/
def padic2 (n : Nat) : Nat := padic2Aux n n

/-- Multiplicity of 5 in `n` (structural on a fuel bound of `n` itself). -/
def padic5Aux (fuel n : Nat) : Nat :=
  match fuel with
  | 0 => 0
  | fuel + 1 => if 1 < n ∧ n % 5 = 0 then padic5Aux fuel (n / 5) + 1 else 0

/-- Multiplicity of 5 in `n`. -/
def padic5 (n : Nat) : Nat := padic5Aux n n

/-- The number of decimal fraction digits needed for denominator `den`. -/
def decK (den : Nat) : Nat := max (padic2 den) (padic5 den)

/-- `q` has an exact finite decimal representation (true of every binary
float, whose denominator is a power of two). -/
def isDecimalRat (q : Rat) : Prop := (q * (10 : Rat) ^ decK q.den).den = 1

/-- Decimal digits, most significant first (structural on a fuel bound). -/
def natToCharsAux (fuel n : Nat) : List Char :=
  match fuel with
  | 0 => []
  | fuel + 1 =>
    if n < 10 then [digitChar n]
    else natToCharsAux fuel (n / 10) ++ [digitChar (n % 10)]

/-- Decimal digits of `n`, most significant first. -/
def natToChars (n : Nat) : List Char := natToCharsAux (n + 1) n

/-- `n` printed with leading zeros to (at least) `k` digits. -/
def padDigits (k n : Nat) : List Char :=
  List.replicate (k - (natToChars n).length) '0' ++ natToChars n

/-- The digits-and-point part of a printed decimal: `a / 10^k` with `k`
fraction digits (none, and no point, when `k = 0`). -/
def printedMant (k a : Nat) : List Char :=
  if k = 0 then natToChars a
  else natToChars (a / 10 ^ k) ++ '.' :: padDigits k (a % 10 ^ k)

/-- Exact minimal-digit decimal form of a rational (exact whenever
`isDecimalRat q`); this is the fixed-notation core of the `%g` model
`ratPrint6` below, which applies it to the 6-significant-digit rounding of
the value. -/
def ratPrint (q : Rat) : List Char :=
  let k := decK q.den
  let m := (q * (10 : Rat) ^ k).num
  (if m < 0 then ['-'] else []) ++ printedMant k m.natAbs

/-- Decimal print of an integer. -/
def intPrint (n : Int) : List Char :=
  (if n < 0 then ['-'] else []) ++ natToChars n.natAbs

/-- Decimal exponent of the positive fraction `num / den`: the `X` with
`10^X ≤ num/den < 10^(X+1)` (structural on a fuel bound large enough for
every denominator). -/
def decExpPosAux (fuel num den : Nat) : Int :=
  if den ≤ num then ((natToChars (num / den)).length : Int) - 1
  else
    match fuel with
    | 0 => 0
    | fuel + 1 => decExpPosAux fuel (num * 10) den - 1

/-- Decimal exponent of the positive fraction `num / den`. -/
def decExpPos (num den : Nat) : Int :=
  decExpPosAux ((natToChars den).length + 1) num den

/-- `num / den` rounded to the nearest integer, ties to even (the rounding
printf applies when shortening the exact decimal expansion). -/
def roundHalfEven (num den : Nat) : Nat :=
  let fl := num / den
  let r2 := 2 * (num % den)
  if r2 < den then fl
  else if den < r2 then fl + 1
  else if fl % 2 = 0 then fl else fl + 1

/-- The 6 significant decimal digits of `|q|` (for `q ≠ 0`): returns
`(n, X)` with `n ∈ [10^5, 10^6)` and `|q| ≈ n * 10^(X-5)`, bumping the
exponent when rounding carries into a seventh digit. -/
def round6Scaled (q : Rat) : Nat × Int :=
  let num := q.num.natAbs
  let den := q.den
  let X := decExpPos num den
  let tnum := if 0 ≤ 5 - X then num * 10 ^ (5 - X).toNat else num
  let tden := if 0 ≤ 5 - X then den else den * 10 ^ (X - 5).toNat
  let n := roundHalfEven tnum tden
  if n < 10 ^ 6 then (n, X) else (10 ^ 5, X + 1)

/-- The rational value `n * 10^(X-5)`. -/
def sixVal (n : Nat) (X : Int) : Rat :=
  if 0 ≤ X - 5 then (n : Rat) * (10 : Rat) ^ (X - 5).toNat
  else (n : Rat) / (10 : Rat) ^ (5 - X).toNat

/-- `q` rounded to 6 significant decimal digits — the precision kept by
default `ostream` float formatting. -/
def round6 (q : Rat) : Rat :=
  if q = 0 then 0
  else
    let nX := round6Scaled q
    if q < 0 then -(sixVal nX.1 nX.2) else sixVal nX.1 nX.2

/-- Scientific-notation rendering `d.ddddde±XX` of the 6 rounded digits,
trailing zeros stripped, as `%g` produces outside the fixed range. -/
def sciPrint (neg : Bool) (n : Nat) (X : Int) : List Char :=
  let stripped := ((natToChars n).reverse.dropWhile (fun c => c = '0')).reverse
  let mant :=
    match stripped with
    | [] => ['0']
    | c :: rest => if rest.isEmpty then [c] else c :: '.' :: rest
  (if neg then ['-'] else []) ++ mant ++ 'e' ::
    (if X < 0 then '-' else '+') :: padDigits 2 X.natAbs

/-- Default-precision `ostream` float output (`out << d.temperature`,
line 587): `%g` with precision 6.  The value is rounded to 6 significant
decimal digits; when the rounded value's decimal exponent `X` satisfies
`-4 ≤ X < 6` it is printed in fixed notation with trailing zeros stripped —
which is exactly the minimal-digit exact decimal form of the rounded value,
i.e. `ratPrint (round6 q)` — and in scientific notation otherwise. -/
def ratPrint6 (q : Rat) : List Char :=
  if q = 0 then ['0']
  else
    let nX := round6Scaled q
    if -4 ≤ nX.2 ∧ nX.2 < 6 then ratPrint (round6 q)
    else sciPrint (decide (q < 0)) nX.1 nX.2

/-! ### Persistence: `BMP280Gui::save_data` / `BMP280Gui::load_data`

`save_data` writes one `temperature<delim>pressure<delim>timestamp` line per
buffered sample, oldest first (the temp-file-then-rename step is filesystem
behaviour outside this model); `load_data` clears the history, parses each
line with `istringstream >> t >> delim >> p >> delim >> ts`, accepts it only
under the validation test of line 617-619 of the source, and returns whether
the resulting history is non-empty.  Files are modelled as the list of their
lines (`std::getline` splitting). -/

/-- One line written by `save_data`: the two floats go through the
default-precision stream formatting `ratPrint6` (6 significant digits), the
timestamp is printed exactly. -/
def save_line (delim : Char) (d : DataPoint) : List Char :=
  ratPrint6 d.temperature ++ delim :: ratPrint6 d.pressure ++ delim :: intPrint d.timestamp

/-- The lines written by `save_data` (oldest to newest, via `history[i]`). -/
def save_data (delim : Char) (b : CircularBuffer) : List (List Char) :=
  (List.range b.get_size).map (fun i => save_line delim (b.buffer (b.phys i)))

/-- One iteration of `load_data`'s parsing loop.  Note that the single C++
variable `delim` is overwritten by the second delimiter extraction, so only
the *second* delimiter is compared against `csv_delimiter`; the range bounds
are the hardcoded literals of the source. -/
def parse_line (delim : Char) (now : Int) (line : List Char) : Option DataPoint :=
  match parse_float line with
  | none => none
  | some (t, r1) =>
    match parse_char r1 with
    | none => none
    | some (_, r2) =>
      match parse_float r2 with
      | none => none
      | some (p, r3) =>
        match parse_char r3 with
        | none => none
        | some (d2, r4) =>
          match parse_int r4 with
          | none => none
          | some (ts, _) =>
            if d2 = delim ∧ -40 ≤ t ∧ t ≤ 85 ∧ 300 ≤ p ∧ p ≤ 1100 ∧ 0 < ts ∧ ts ≤ now
            then some ⟨t, p, ts⟩ else none

/-- Line acceptance as the specification words it ("both delimiter
occurrences matching the configured delimiter character") — kept side by
side with `parse_line`, which is the translation of the source, to compare
the two. -/
def parse_line_claim (delim : Char) (now : Int) (line : List Char) : Option DataPoint :=
  match parse_float line with
  | none => none
  | some (t, r1) =>
    match parse_char r1 with
    | none => none
    | some (d1, r2) =>
      match parse_float r2 with
      | none => none
      | some (p, r3) =>
        match parse_char r3 with
        | none => none
        | some (d2, r4) =>
          match parse_int r4 with
          | none => none
          | some (ts, _) =>
            if d1 = delim ∧ d2 = delim ∧ -40 ≤ t ∧ t ≤ 85 ∧ 300 ≤ p ∧ p ≤ 1100 ∧ 0 < ts ∧ ts ≤ now
            then some ⟨t, p, ts⟩ else none

/-- `load_data` over the list of lines of an existing file: clears the
history, pushes each accepted line, counts one `add_error` report per
rejected line, and returns `history.get_size() > 0`. -/
def load_data (delim : Char) (now : Int) (b : CircularBuffer) (lines : List (List Char)) :
    CircularBuffer × Nat × Bool :=
  let r := lines.foldl (fun acc line =>
    match parse_line delim now line with
    | some d => (acc.1.push d, acc.2)
    | none => (acc.1, acc.2 + 1)) (b.clear, 0)
  (r.1, r.2, decide (0 < r.1.get_size))

/-! ### Serial input: `BMP280Gui::process_line` / `BMP280Gui::read_serial` -/

/-- `p` occurs as a contiguous sublist of the second argument
(`std::string::find(...) != npos`). -/
def hasSubstr (p : List Char) : List Char → Bool
  | [] => p.isEmpty
  | c :: t => p.isPrefixOf (c :: t) || hasSubstr p t

/-- `BMP280Gui::parse_value`: find the first character of `-0123456789`,
then `std::stof` on the suffix (failure of the conversion is `none`). -/
def parse_value (line : List Char) : Option Rat :=
  match line.dropWhile (fun c => !(c = '-' || isDig c)) with
  | [] => none
  | c :: r => (parse_float (c :: r)).map (fun x => x.1)

/-- The per-chunk accumulator threaded through `process_line`
(`temp`, `press`, `got_temp`, `got_press`, plus the number of `add_error`
calls). -/
structure LineAcc where
  temp : Rat
  press : Rat
  got_temp : Bool
  got_press : Bool
  errs : Nat
deriving DecidableEq, Repr

/-- Temperature in range (line 373 of the source). -/
def tempRangeOk (v : Rat) : Bool := decide (-40 ≤ v ∧ v ≤ 85)

/-- Pressure in range (line 380 of the source). -/
def pressRangeOk (v : Rat) : Bool := decide (300 ≤ v ∧ v ≤ 1100)

/-- `BMP280Gui::process_line`: if the line contains `"Temp"` and yields a
number, record it when in range (else one transient error); otherwise the
same for `"Pres"`. -/
def process_line (line : List Char) (acc : LineAcc) : LineAcc :=
  match (if hasSubstr "Temp".toList line then parse_value line else none) with
  | some v =>
    if tempRangeOk v then { acc with temp := v, got_temp := true }
    else { acc with errs := acc.errs + 1 }
  | none =>
    match (if hasSubstr "Pres".toList line then parse_value line else none) with
    | some v =>
      if pressRangeOk v then { acc with press := v, got_press := true }
      else { acc with errs := acc.errs + 1 }
    | none => acc

/-- Whether a single completed line yields a valid in-range temperature. -/
def line_gives_temp (line : List Char) : Bool :=
  match (if hasSubstr "Temp".toList line then parse_value line else none) with
  | some v => tempRangeOk v
  | none => false

/-- Whether a single completed line yields a valid in-range pressure (the
`else if` makes a line that already matched the temperature branch unable to
set the pressure). -/
def line_gives_press (line : List Char) : Bool :=
  match (if hasSubstr "Temp".toList line then parse_value line else none) with
  | some _ => false
  | none =>
    match (if hasSubstr "Pres".toList line then parse_value line else none) with
    | some v => pressRangeOk v
    | none => false

/-- Split a byte buffer into its newline-terminated lines (without the
newline) and the trailing remainder, as `read_serial`'s `find('\n')` loop
does. -/
def splitLines : List Char → List (List Char) × List Char
  | [] => ([], [])
  | c :: t =>
    let r := splitLines t
    if c = '\n' then ([] :: r.1, r.2)
    else
      match r.1 with
      | [] => ([], c :: r.2)
      | l :: ls => ((c :: l) :: ls, r.2)

/-- Result of one `read_serial` invocation. -/
structure ReadResult where
  history : CircularBuffer
  pending : List Char
  pushed : Option DataPoint
  errs : Nat

/-- `BMP280Gui::read_serial`, data path of one invocation with data ready:
`read` delivers at most `BUFFER_SIZE - serial_buf_pos - 1` bytes of what the
device has available (`avail`); zero bytes delivered returns with no change;
otherwise the completed lines of pending-plus-delivered are processed and a
sample is pushed exactly when both fields were observed; the remainder stays
in `serial_buffer`.  (The `select`/`errno` error exits and the `paused` and
`fd == -1` guards close the port without touching the pending buffer and are
outside this data-path model.) -/
def read_serial (b : CircularBuffer) (pending avail : List Char) (now : Int) : ReadResult :=
  let delivered := avail.take (BUFFER_SIZE - pending.length - 1)
  if delivered.length = 0 then ⟨b, pending, none, 0⟩
  else
    let sp := splitLines (pending ++ delivered)
    let acc := sp.1.foldl (fun a l => process_line l a) ⟨0, 0, false, false, 0⟩
    if acc.got_temp && acc.got_press then
      ⟨b.push ⟨acc.temp, acc.press, now⟩, sp.2, some ⟨acc.temp, acc.press, now⟩, acc.errs⟩
    else ⟨b, sp.2, none, acc.errs⟩

/-! ### Reconnection: `BMP280Gui::try_reconnect` -/

/-- The fields of `BMP280Gui` that `try_reconnect` reads and writes. -/
structure ReconnectState where
  fd_connected : Bool
  reconnect_attempts : Nat
  last_reconnect_attempt : Int
  baud_rate : Nat
  error_messages : List (List Char)
  persistent_errors : List (List Char)
  last_error_time : Int
deriving DecidableEq, Repr

/-- `BMP280Gui::add_error`: both lists are capped at 5 entries (oldest
dropped); persistent errors are additionally recorded in the persistent
list. -/
def ReconnectState.add_error (st : ReconnectState) (now : Int) (msg : List Char)
    (persistent : Bool) : ReconnectState :=
  { st with
    error_messages :=
      (if 5 ≤ st.error_messages.length then st.error_messages.drop 1
       else st.error_messages) ++ [msg]
    persistent_errors :=
      if persistent then
        (if 5 ≤ st.persistent_errors.length then st.persistent_errors.drop 1
         else st.persistent_errors) ++ [msg]
      else st.persistent_errors
    last_error_time := now }

/-- Message of `add_error("No serial port available", true)`. -/
def msg_no_port : List Char := "No serial port available".toList

/-- Message added when `open_serial` fails (the `SerialPort` constructor's
exception text). -/
def msg_open_fail (port : List Char) : List Char :=
  "Failed to open serial port: ".toList ++ port

/-- Message of the final `add_error` when no baud rate worked. -/
def msg_reconnect_fail (port : List Char) : List Char :=
  "Failed to reconnect to ".toList ++ port ++ " with any baud rate".toList

/-- `BMP280Gui::try_reconnect`.  Environment inputs: the current time, the
result of `find_serial_port`, and which baud rates would open successfully. -/
def try_reconnect (st : ReconnectState) (now : Int) (port : Option (List Char))
    (openOk : Nat → Bool) : ReconnectState :=
  if st.fd_connected = true ∨ max_reconnect_attempts ≤ st.reconnect_attempts then st
  else if now - st.last_reconnect_attempt < RECONNECT_TIMEOUT then st
  else
    let st1 := { st with last_reconnect_attempt := now,
                         reconnect_attempts := st.reconnect_attempts + 1 }
    match port with
    | none => st1.add_error now msg_no_port true
    | some p =>
      if openOk 9600 then
        { st1 with fd_connected := true, baud_rate := 9600,
                   persistent_errors := [], error_messages := [],
                   reconnect_attempts := 0 }
      else
        let st2 := st1.add_error now (msg_open_fail p) true
        if openOk 115200 then
          { st2 with fd_connected := true, baud_rate := 115200,
                     persistent_errors := [], error_messages := [],
                     reconnect_attempts := 0 }
        else
          (st2.add_error now (msg_open_fail p) true).add_error now (msg_reconnect_fail p) true

/-! ### Process exit codes: `main`, `BMP280Gui::run`, `handle_events` -/

/-- Key handling restricted to termination behaviour: the `q`/`Q` handler
throws `std::runtime_error("User quit")`; every other key returns
normally. -/
def handle_key (k : Char) : Except (List Char) Unit :=
  if k = 'q' ∨ k = 'Q' then Except.error "User quit".toList else Except.ok ()

/-- The keys processed over an execution, stopping at the first escaping
exception. -/
def process_keys : List Char → Except (List Char) Unit
  | [] => Except.ok ()
  | k :: ks =>
    match handle_key k with
    | Except.error e => Except.error e
    | Except.ok _ => process_keys ks

/-- `BMP280Gui::run` is `while (true) { ... }`: the only way it terminates
is an exception escaping it.  Given the key events of an execution, `some e`
is the exception that ends `run`; `none` means the loop is still running. -/
def run_outcome (keys : List Char) : Option (Except (List Char) Unit) :=
  match process_keys keys with
  | Except.error e => some (Except.error e)
  | Except.ok _ => none

/-- `main`: construction failure (e.g. `X11Display` throwing "Cannot open
display") or any exception escaping `run` lands in the `catch` and returns
1; a normal return of `app.run()` would return 0.  `none`: the process has
not exited. -/
def main_exit (startup : Except (List Char) Unit) (keys : List Char) : Option Nat :=
  match startup with
  | Except.error _ => some 1
  | Except.ok _ =>
    match run_outcome keys with
    | some (Except.error _) => some 1
    | some (Except.ok _) => some 0
    | none => none

/-! ### Side conditions and concrete evaluation inputs -/

/-- A CSV delimiter character that the text format can actually carry: not a
digit, not whitespace, and not one of the characters a C-locale number scan
would absorb.  The default `','` and every punctuation delimiter satisfy
this. -/
def delimOk (delim : Char) : Prop :=
  isDig delim = false ∧ isWs delim = false ∧ delim ≠ '.' ∧ delim ≠ '-' ∧
  delim ≠ '+' ∧ delim ≠ 'e' ∧ delim ≠ 'E'

/-- The input following a printed number does not continue the number: its
first character (if any) is not a digit, a point, or an exponent marker. -/
def stopsFloat (rest : List Char) : Prop :=
  ∀ c, rest.head? = some c → isDig c = false ∧ c ≠ '.' ∧ c ≠ 'e' ∧ c ≠ 'E'

/-- 301 distinct samples, for evaluating the over-capacity behaviour. -/
def c1wList : List DataPoint := (List.range 301).map (fun n => ⟨(n : Rat), 400, 1⟩)

/-- The value survives default 6-significant-digit float formatting
exactly: its `%g` output is its exact minimal decimal form.  True of every
in-range value with at most 6 significant decimal digits; false e.g. of
45.67891. -/
def sixRepOk (q : Rat) : Prop := ratPrint6 q = ratPrint q

/-- A single in-range decimal sample, for evaluating the save/load round
trip. -/
def c2List : List DataPoint := [⟨23.5, 990, 100⟩]

/-- An in-range sample whose temperature needs 7 significant digits, which
default float formatting truncates. -/
def c2lossList : List DataPoint := [⟨45.67891, 990, 100⟩]

/-- Three samples with temperatures 1, 2, 6 (mean 3), for evaluating the
smoothing formula. -/
def c3List : List DataPoint := [⟨1, 400, 1⟩, ⟨2, 500, 2⟩, ⟨6, 600, 3⟩]

/-- The specification's example chunk. -/
def c4chunk : List Char := "Temp: 23.5\nPres: 990.0\n".toList

/-- A buffer holding exactly one sample. -/
def c5buf : CircularBuffer := CircularBuffer.empty.push ⟨1, 400, 3⟩

/-- A disconnected state whose retry budget is exhausted. -/
def c6spent : ReconnectState := ⟨false, 10, 0, 9600, [], [], 0⟩

/-- A disconnected state with budget left and the cool-down long expired. -/
def c6ready : ReconnectState := ⟨false, 3, 0, 9600, [msg_no_port], [msg_no_port], 0⟩

/-- A well-formed data line (delimiter `','`). -/
def c7goodLine : List Char := "23.5,990.0,100".toList

/-- A line whose *first* delimiter is `'X'` instead of the configured
`','`. -/
def c7badLine : List Char := "20.0X500.0,100".toList

/-- A pending serial buffer filled to `BUFFER_SIZE - 1` bytes with no
newline. -/
def c8pending : List Char := List.replicate 255 'a'

/-! ### Digit-string lemmas -/

theorem charVal_digitChar {d : Nat} (h : d < 10) : charVal (digitChar d) = d := by
  interval_cases d <;> rfl

theorem isDig_digitChar {d : Nat} (h : d < 10) : isDig (digitChar d) = true := by
  interval_cases d <;> decide

theorem isDig_not_ws {c : Char} (h : isDig c = true) : isWs c = false := by
  rw [isDig, decide_eq_true_eq] at h
  rw [isWs, decide_eq_false_iff_not]
  rintro (rfl | rfl | rfl | rfl | rfl | rfl) <;> exact absurd h (by decide)

theorem isDig_ne_dash {c : Char} (h : isDig c = true) : c ≠ '-' := by
  rintro rfl; exact absurd h (by decide)

theorem isDig_ne_plus {c : Char} (h : isDig c = true) : c ≠ '+' := by
  rintro rfl; exact absurd h (by decide)

theorem isDig_ne_point {c : Char} (h : isDig c = true) : c ≠ '.' := by
  rintro rfl; exact absurd h (by decide)

theorem natToCharsAux_irrel : ∀ (n f1 f2 : Nat), n < f1 → n < f2 →
    natToCharsAux f1 n = natToCharsAux f2 n := by
  intro n
  induction n using Nat.strong_induction_on with
  | _ n ih =>
    intro f1 f2 h1 h2
    cases f1 with
    | zero => omega
    | succ g1 =>
      cases f2 with
      | zero => omega
      | succ g2 =>
        show (if n < 10 then [digitChar n] else natToCharsAux g1 (n / 10) ++ [digitChar (n % 10)])
          = (if n < 10 then [digitChar n] else natToCharsAux g2 (n / 10) ++ [digitChar (n % 10)])
        by_cases hn : n < 10
        · rw [if_pos hn, if_pos hn]
        · rw [if_neg hn, if_neg hn, ih (n / 10) (by omega) g1 g2 (by omega) (by omega)]

theorem natToChars_eq (n : Nat) :
    natToChars n = if n < 10 then [digitChar n]
      else natToChars (n / 10) ++ [digitChar (n % 10)] := by
  show (if n < 10 then [digitChar n] else natToCharsAux n (n / 10) ++ [digitChar (n % 10)]) = _
  by_cases hn : n < 10
  · rw [if_pos hn, if_pos hn]
  · rw [if_neg hn, if_neg hn,
      natToCharsAux_irrel (n / 10) n (n / 10 + 1) (by omega) (by omega)]
    rfl

theorem natToChars_ne_nil (n : Nat) : natToChars n ≠ [] := by
  rw [natToChars_eq]
  split <;> simp

theorem natToChars_all_dig : ∀ n, ∀ c ∈ natToChars n, isDig c = true := by
  intro n
  induction n using Nat.strong_induction_on with
  | _ n ih =>
    intro c hc
    rw [natToChars_eq] at hc
    split at hc
    · simp only [List.mem_singleton] at hc
      subst hc
      exact isDig_digitChar (by omega)
    · rcases List.mem_append.mp hc with h1 | h2
      · exact ih (n / 10) (by omega) c h1
      · simp only [List.mem_singleton] at h2
        subst h2
        exact isDig_digitChar (by omega)

theorem foldl_digit_shift : ∀ (l : List Char) (a : Nat),
    l.foldl (fun x c => 10 * x + charVal c) a = a * 10 ^ l.length + ofDigitChars l := by
  intro l
  induction l with
  | nil => intro a; simp [ofDigitChars]
  | cons c t ih =>
    intro a
    have hc : ofDigitChars (c :: t) = charVal c * 10 ^ t.length + ofDigitChars t := by
      show t.foldl _ (10 * 0 + charVal c) = _
      rw [ih]
      ring
    show t.foldl _ (10 * a + charVal c) = a * 10 ^ (c :: t).length + ofDigitChars (c :: t)
    rw [ih, hc, List.length_cons, pow_succ]
    ring

theorem ofDigitChars_append (l r : List Char) :
    ofDigitChars (l ++ r) = ofDigitChars l * 10 ^ r.length + ofDigitChars r := by
  show (l ++ r).foldl _ 0 = _
  rw [List.foldl_append]
  exact foldl_digit_shift r _

theorem ofDigitChars_natToChars : ∀ n, ofDigitChars (natToChars n) = n := by
  intro n
  induction n using Nat.strong_induction_on with
  | _ n ih =>
    rw [natToChars_eq]
    split
    · show (10 * 0 + charVal (digitChar n)) = n
      rw [charVal_digitChar (by omega)]
      omega
    · rw [ofDigitChars_append, ih (n / 10) (by omega)]
      show n / 10 * 10 ^ ([digitChar (n % 10)].length) + (10 * 0 + charVal (digitChar (n % 10))) = n
      rw [charVal_digitChar (by omega)]
      simp
      omega

theorem natToChars_length_le : ∀ n k, 1 ≤ k → n < 10 ^ k → (natToChars n).length ≤ k := by
  intro n
  induction n using Nat.strong_induction_on with
  | _ n ih =>
    intro k hk hlt
    rw [natToChars_eq]
    split
    · simpa using hk
    · rename_i hge
      have hk2 : 2 ≤ k := by
        rcases Nat.lt_or_ge k 2 with h | h
        · interval_cases k
          · exact absurd hlt (by simp; omega)
        · exact h
      have hpow : (10 : Nat) ^ k = 10 ^ (k - 1) * 10 := by
        rw [← pow_succ]
        congr 1
        omega
      have hdiv : n / 10 < 10 ^ (k - 1) := by
        rw [Nat.div_lt_iff_lt_mul (by norm_num)]
        omega
      have := ih (n / 10) (by omega) (k - 1) (by omega) hdiv
      simp only [List.length_append, List.length_cons, List.length_nil]
      omega

/-! ### takeWhile / dropWhile lemmas -/

theorem takeWhile_all {α} (p : α → Bool) :
    ∀ l : List α, (∀ c ∈ l, p c = true) → l.takeWhile p = l ∧ l.dropWhile p = [] := by
  intro l
  induction l with
  | nil => simp
  | cons c t ih =>
    intro h
    have hc : p c = true := h c (by simp)
    have ht := ih (fun x hx => h x (by simp [hx]))
    simp [List.takeWhile_cons, List.dropWhile_cons, hc, ht.1, ht.2]

theorem takeWhile_append_stop {α} (p : α → Bool) :
    ∀ l r : List α, (∀ c ∈ l, p c = true) → (∀ c, r.head? = some c → p c = false) →
    (l ++ r).takeWhile p = l ∧ (l ++ r).dropWhile p = r := by
  intro l
  induction l with
  | nil =>
    intro r _ hr
    cases r with
    | nil => simp
    | cons c t =>
      have hc : p c = false := hr c rfl
      simp [List.takeWhile_cons, List.dropWhile_cons, hc]
  | cons c t ih =>
    intro r h hr
    have hc : p c = true := h c (by simp)
    have ht := ih r (fun x hx => h x (by simp [hx])) hr
    simp [List.takeWhile_cons, List.dropWhile_cons, hc, ht.1, ht.2]

/-! ### Printed decimal numbers parse back exactly -/

theorem oDC_replicate_zero : ∀ j, ofDigitChars (List.replicate j '0') = 0 := by
  intro j
  induction j with
  | zero => rfl
  | succ j ih =>
    show (List.replicate (j + 1) '0').foldl _ 0 = 0
    rw [List.replicate_succ]
    show (List.replicate j '0').foldl _ (10 * 0 + charVal '0') = 0
    exact ih

theorem padDigits_all_dig (k n : Nat) : ∀ c ∈ padDigits k n, isDig c = true := by
  intro c hc
  rcases List.mem_append.mp hc with h1 | h2
  · rw [List.eq_of_mem_replicate h1]
    decide
  · exact natToChars_all_dig n c h2

theorem padDigits_length (k n : Nat) (h : (natToChars n).length ≤ k) :
    (padDigits k n).length = k := by
  simp only [padDigits, List.length_append, List.length_replicate]
  omega

theorem ofDigitChars_padDigits (k n : Nat) : ofDigitChars (padDigits k n) = n := by
  rw [padDigits, ofDigitChars_append, oDC_replicate_zero, ofDigitChars_natToChars]
  ring

theorem nat_div_mod_decomp (a k : Nat) :
    ((a / 10 ^ k : Nat) : Rat) + ((a % 10 ^ k : Nat) : Rat) / (10 : Rat) ^ k
      = ((a : Nat) : Rat) / (10 : Rat) ^ k := by
  have h10 : ((10 : Rat) ^ k) ≠ 0 := by positivity
  have hh : 10 ^ k * (a / 10 ^ k) + a % 10 ^ k = a := Nat.div_add_mod a (10 ^ k)
  have key : ((10 ^ k * (a / 10 ^ k) + a % 10 ^ k : Nat) : Rat) = ((a : Nat) : Rat) := by
    rw [hh]
  push_cast at key
  field_simp
  linarith [key]

theorem printedMant_head (k a : Nat) :
    ∃ c t, printedMant k a = c :: t ∧ isDig c = true := by
  rw [printedMant]
  split
  · rcases hnc : natToChars a with _ | ⟨c, t⟩
    · exact absurd hnc (natToChars_ne_nil a)
    · exact ⟨c, t, rfl, natToChars_all_dig a c (by rw [hnc]; simp)⟩
  · rcases hnc : natToChars (a / 10 ^ k) with _ | ⟨c, t⟩
    · exact absurd hnc (natToChars_ne_nil _)
    · exact ⟨c, t ++ '.' :: padDigits k (a % 10 ^ k), by simp,
        natToChars_all_dig _ c (by rw [hnc]; simp)⟩

theorem parse_mantissa_printed (k a : Nat) (rest : List Char) (hstop : stopsFloat rest) :
    parse_mantissa (printedMant k a ++ rest) = some (((a : Nat) : Rat) / (10 : Rat) ^ k, rest) := by
  have hrest_dig : ∀ c, rest.head? = some c → isDig c = false := fun c hc => (hstop c hc).1
  rcases Nat.eq_zero_or_pos k with hk | hk
  · subst hk
    rw [printedMant, if_pos rfl]
    have htw := takeWhile_append_stop isDig (natToChars a) rest (natToChars_all_dig a) hrest_dig
    rw [parse_mantissa]
    simp only [htw.1, htw.2]
    have hdot : ¬ (rest.head? = some '.') := fun hc => (hstop '.' hc).2.1 rfl
    rw [if_neg hdot, if_neg (by simp [natToChars_ne_nil a])]
    rw [ofDigitChars_natToChars]
    norm_num
  · have hkne : k ≠ 0 := by omega
    rw [printedMant, if_neg hkne]
    have hmod : a % 10 ^ k < 10 ^ k := Nat.mod_lt a (by positivity)
    have hlen : (natToChars (a % 10 ^ k)).length ≤ k :=
      natToChars_length_le _ k (by omega) hmod
    have htw1 := takeWhile_append_stop isDig (natToChars (a / 10 ^ k))
      ('.' :: (padDigits k (a % 10 ^ k) ++ rest)) (natToChars_all_dig _)
      (fun c hc => by simp at hc; rw [← hc]; decide)
    have htw2 := takeWhile_append_stop isDig (padDigits k (a % 10 ^ k)) rest
      (padDigits_all_dig k _) hrest_dig
    rw [parse_mantissa]
    have hshape : natToChars (a / 10 ^ k) ++ '.' :: padDigits k (a % 10 ^ k) ++ rest
        = natToChars (a / 10 ^ k) ++ '.' :: (padDigits k (a % 10 ^ k) ++ rest) := by
      simp
    rw [hshape]
    simp only [htw1.1, htw1.2]
    rw [if_pos (show ('.' :: (padDigits k (a % 10 ^ k) ++ rest)).head? = some '.' from rfl)]
    simp only [List.tail_cons, htw2.1, htw2.2]
    rw [if_neg (by simp [natToChars_ne_nil])]
    rw [ofDigitChars_natToChars, ofDigitChars_padDigits, padDigits_length k _ hlen]
    rw [nat_div_mod_decomp]

theorem parse_exponent_stop (v : Rat) (rest : List Char) (hstop : stopsFloat rest) :
    parse_exponent v rest = (v, rest) := by
  rw [parse_exponent, if_neg]
  rintro (hc | hc)
  · exact (hstop 'e' hc).2.2.1 rfl
  · exact (hstop 'E' hc).2.2.2 rfl

theorem parse_char_cons (c : Char) (xs : List Char) (h : isWs c = false) :
    parse_char (c :: xs) = some (c, xs) := by
  simp [parse_char, List.dropWhile_cons, h]

theorem ratPrint_eq (q : Rat) :
    ratPrint q = (if (q * (10 : Rat) ^ decK q.den).num < 0 then ['-'] else [])
      ++ printedMant (decK q.den) (q * (10 : Rat) ^ decK q.den).num.natAbs := rfl

theorem parse_float_ratPrint (q : Rat) (hq : isDecimalRat q) (rest : List Char)
    (hstop : stopsFloat rest) :
    parse_float (ratPrint q ++ rest) = some (q, rest) := by
  rw [isDecimalRat] at hq
  have h10 : ((10 : Rat) ^ decK q.den) ≠ 0 := by positivity
  have hqm : q * (10 : Rat) ^ decK q.den = ((q * (10 : Rat) ^ decK q.den).num : Rat) :=
    (Rat.coe_int_num_of_den_eq_one hq).symm
  rw [ratPrint_eq]
  generalize hK : decK q.den = K at *
  generalize hM : (q * (10 : Rat) ^ K).num = M at *
  have hq_eq : q = (M : Rat) / (10 : Rat) ^ K := by
    rw [eq_div_iff h10, hqm]
  obtain ⟨c, t, hct, hcd⟩ := printedMant_head K M.natAbs
  have hmant := parse_mantissa_printed K M.natAbs rest hstop
  have hexp := parse_exponent_stop (((M.natAbs : Nat) : Rat) / (10 : Rat) ^ K) rest hstop
  by_cases hneg : M < 0
  · have habs : ((M.natAbs : Nat) : Int) = -M := by omega
    have habsq : ((M.natAbs : Nat) : Rat) = -((M : Int) : Rat) := by
      have hc2 : (((M.natAbs : Nat) : Int) : Rat) = ((-M : Int) : Rat) := by rw [habs]
      rw [Int.cast_natCast, Int.cast_neg] at hc2
      exact hc2
    rw [if_pos hneg]
    show parse_float ('-' :: (printedMant K M.natAbs ++ rest)) = some (q, rest)
    have hwsdash : isWs '-' = false := by decide
    have hdrop : List.dropWhile isWs ('-' :: (printedMant K M.natAbs ++ rest))
        = '-' :: (printedMant K M.natAbs ++ rest) := by
      simp [List.dropWhile_cons, hwsdash]
    have hsign : parse_sign ('-' :: (printedMant K M.natAbs ++ rest))
        = (true, printedMant K M.natAbs ++ rest) := by
      rw [parse_sign,
        if_pos (show ('-' :: (printedMant K M.natAbs ++ rest)).head? = some '-' from rfl)]
      rfl
    simp only [parse_float, hdrop, hsign, hmant, hexp]
    simp [hq_eq, habsq, neg_div, neg_neg]
  · have habs : ((M.natAbs : Nat) : Int) = M := by omega
    have habsq : ((M.natAbs : Nat) : Rat) = ((M : Int) : Rat) := by
      have hc2 : (((M.natAbs : Nat) : Int) : Rat) = ((M : Int) : Rat) := by rw [habs]
      rw [Int.cast_natCast] at hc2
      exact hc2
    rw [if_neg hneg]
    show parse_float (printedMant K M.natAbs ++ rest) = some (q, rest)
    rw [hct]
    have hdrop : List.dropWhile isWs (c :: (t ++ rest)) = c :: (t ++ rest) := by
      simp [List.dropWhile_cons, isDig_not_ws hcd]
    have hs1 : ¬ ((c :: (t ++ rest)).head? = some '-') := by
      simp only [List.head?_cons, Option.some_inj]
      exact isDig_ne_dash hcd
    have hs2 : ¬ ((c :: (t ++ rest)).head? = some '+') := by
      simp only [List.head?_cons, Option.some_inj]
      exact isDig_ne_plus hcd
    have hsign : parse_sign (c :: (t ++ rest)) = (false, c :: (t ++ rest)) := by
      rw [parse_sign, if_neg hs1, if_neg hs2]
    have hmant2 : parse_mantissa (c :: (t ++ rest))
        = some (((M.natAbs : Nat) : Rat) / (10 : Rat) ^ K, rest) := by
      rw [show c :: (t ++ rest) = printedMant K M.natAbs ++ rest from by rw [hct]; rfl]
      exact hmant
    simp only [parse_float, List.cons_append, hdrop, hsign, hmant2, hexp]
    simp [hq_eq, habsq]

theorem parse_int_intPrint (n : Int) (hn : 0 < n) : parse_int (intPrint n) = some (n, []) := by
  have hne := natToChars_ne_nil n.natAbs
  have hall := natToChars_all_dig n.natAbs
  have htw := takeWhile_all isDig (natToChars n.natAbs) hall
  have habs : ((n.natAbs : Nat) : Int) = n := by omega
  rcases hnc : natToChars n.natAbs with _ | ⟨c, t⟩
  · exact absurd hnc hne
  · have hcd : isDig c = true := hall c (by rw [hnc]; simp)
    have hdrop : List.dropWhile isWs (c :: t) = c :: t := by
      simp [List.dropWhile_cons, isDig_not_ws hcd]
    have hsign : parse_sign (c :: t) = (false, c :: t) := by
      simp [parse_sign, isDig_ne_dash hcd, isDig_ne_plus hcd]
    have hds : (c :: t).takeWhile isDig = c :: t := by rw [← hnc]; exact htw.1
    have hds2 : (c :: t).dropWhile isDig = [] := by rw [← hnc]; exact htw.2
    have hval : ofDigitChars (c :: t) = n.natAbs := by rw [← hnc]; exact ofDigitChars_natToChars _
    rw [intPrint, if_neg (by omega)]
    show parse_int (natToChars n.natAbs) = some (n, [])
    rw [hnc]
    simp [parse_int, hdrop, hsign, hds, hds2, hval, habs]

theorem parse_line_save_line (delim : Char) (now : Int) (d : DataPoint)
    (hd : delimOk delim)
    (h1 : -40 ≤ d.temperature) (h2 : d.temperature ≤ 85)
    (h3 : 300 ≤ d.pressure) (h4 : d.pressure ≤ 1100)
    (h5 : 0 < d.timestamp) (h6 : d.timestamp ≤ now)
    (hdec1 : isDecimalRat d.temperature) (hdec2 : isDecimalRat d.pressure)
    (hsix1 : ratPrint6 d.temperature = ratPrint d.temperature)
    (hsix2 : ratPrint6 d.pressure = ratPrint d.pressure) :
    parse_line delim now (save_line delim d) = some d := by
  obtain ⟨hdg, hws, hdot, hdash, hplus, he, hE⟩ := hd
  have hstop1 : stopsFloat (delim :: (ratPrint d.pressure ++ delim :: intPrint d.timestamp)) := by
    intro c hc
    simp only [List.head?_cons, Option.some_inj] at hc
    subst hc
    exact ⟨hdg, hdot, he, hE⟩
  have hstop2 : stopsFloat (delim :: intPrint d.timestamp) := by
    intro c hc
    simp only [List.head?_cons, Option.some_inj] at hc
    subst hc
    exact ⟨hdg, hdot, he, hE⟩
  rw [save_line, parse_line, hsix1, hsix2]
  simp only [List.append_assoc, List.cons_append]
  simp only [parse_float_ratPrint d.temperature hdec1 _ hstop1,
    parse_char_cons delim (ratPrint d.pressure ++ delim :: intPrint d.timestamp) hws,
    parse_float_ratPrint d.pressure hdec2 _ hstop2,
    parse_char_cons delim (intPrint d.timestamp) hws,
    parse_int_intPrint d.timestamp h5]
  rw [if_pos ⟨trivial, h1, h2, h3, h4, h5, h6⟩]

/-! ### Ring-buffer contents under `push` -/

theorem getD_append_left {α} (d : α) :
    ∀ (l r : List α) (n : Nat), n < l.length → (l ++ r).getD n d = l.getD n d := by
  intro l
  induction l with
  | nil => intro r n h; simp at h
  | cons a t ih =>
    intro r n h
    cases n with
    | zero => rfl
    | succ m =>
      show (t ++ r).getD m d = t.getD m d
      exact ih r m (by simpa using h)

theorem getD_append_self {α} (d : α) : ∀ (l : List α) (x : α), (l ++ [x]).getD l.length d = x := by
  intro l
  induction l with
  | nil => intro x; rfl
  | cons a t ih => intro x; exact ih x

theorem pushList_append_one (b : CircularBuffer) (xs : List DataPoint) (x : DataPoint) :
    pushList b (xs ++ [x]) = (pushList b xs).push x := by
  simp [pushList, List.foldl_append]

theorem push_newest (b : CircularBuffer) (x : DataPoint) (hh : b.head < 300) (hs : b.size ≤ 300) :
    (b.push x).buffer ((b.push x).phys ((b.push x).size - 1)) = x := by
  have hphys : (b.push x).phys ((b.push x).size - 1) = b.head := by
    simp only [CircularBuffer.phys, CircularBuffer.push, MAX_POINTS]
    split <;> omega
  rw [hphys]
  show Function.update b.buffer b.head x b.head = x
  exact Function.update_same b.head x b.buffer

theorem push_old_notfull (b : CircularBuffer) (x : DataPoint) (hh : b.head < 300)
    (hs : b.size < 300) (i : Nat) (hi : i < b.size) :
    (b.push x).buffer ((b.push x).phys i) = b.buffer (b.phys i) := by
  have hphys : (b.push x).phys i = b.phys i := by
    simp only [CircularBuffer.phys, CircularBuffer.push, MAX_POINTS]
    rw [if_pos (by simpa [MAX_POINTS] using hs)]
    omega
  have hne : b.phys i ≠ b.head := by
    simp only [CircularBuffer.phys, MAX_POINTS]
    omega
  rw [hphys]
  show Function.update b.buffer b.head x (b.phys i) = b.buffer (b.phys i)
  exact Function.update_noteq hne x b.buffer

theorem push_old_full (b : CircularBuffer) (x : DataPoint) (hh : b.head < 300)
    (hs : b.size = 300) (i : Nat) (hi : i + 1 < 300) :
    (b.push x).buffer ((b.push x).phys i) = b.buffer (b.phys (i + 1)) := by
  have hphys : (b.push x).phys i = b.phys (i + 1) := by
    simp only [CircularBuffer.phys, CircularBuffer.push, MAX_POINTS]
    rw [if_neg (by simp [MAX_POINTS]; omega)]
    omega
  have hne : b.phys (i + 1) ≠ b.head := by
    simp only [CircularBuffer.phys, MAX_POINTS]
    omega
  rw [hphys]
  show Function.update b.buffer b.head x (b.phys (i + 1)) = b.buffer (b.phys (i + 1))
  exact Function.update_noteq hne x b.buffer

theorem pushList_spec (b0 : CircularBuffer) (h0 : b0.head = 0) (hs0 : b0.size = 0)
    (xs : List DataPoint) :
    (pushList b0 xs).head = xs.length % MAX_POINTS ∧
    (pushList b0 xs).size = min xs.length MAX_POINTS ∧
    ∀ i, i < min xs.length MAX_POINTS →
      (pushList b0 xs).buffer ((pushList b0 xs).phys i)
        = xs.getD (xs.length - min xs.length MAX_POINTS + i) default := by
  induction xs using List.reverseRecOn with
  | nil =>
    refine ⟨by simpa [pushList] using h0, by simpa [pushList] using hs0, ?_⟩
    intro i hi
    simp only [List.length_nil, Nat.zero_min, Nat.min_zero] at hi
    omega
  | append_singleton xs x ih =>
    obtain ⟨hh, hsz, hc⟩ := ih
    rw [pushList_append_one]
    set b := pushList b0 xs with hb
    have hh300 : b.head < 300 := by
      rw [hh]
      simp only [MAX_POINTS]
      omega
    have hs300 : b.size ≤ 300 := by
      rw [hsz]
      simp only [MAX_POINTS]
      omega
    refine ⟨?_, ?_, ?_⟩
    · show ((b.head + 1) % MAX_POINTS) = (xs ++ [x]).length % MAX_POINTS
      rw [hh]
      simp only [MAX_POINTS, List.length_append, List.length_cons, List.length_nil]
      omega
    · show (if b.size < MAX_POINTS then b.size + 1 else b.size) = min (xs ++ [x]).length MAX_POINTS
      rw [hsz]
      simp only [MAX_POINTS, List.length_append, List.length_cons, List.length_nil]
      split <;> omega
    · intro i hi
      simp only [MAX_POINTS, List.length_append, List.length_cons, List.length_nil] at hi
      have hS' : (b.push x).size = min (xs.length + 1) 300 := by
        show (if b.size < MAX_POINTS then b.size + 1 else b.size) = _
        rw [hsz]
        simp only [MAX_POINTS]
        split <;> omega
      by_cases hlast : i = min (xs.length + 1) 300 - 1
      · have hidx : (xs ++ [x]).length - min (xs ++ [x]).length MAX_POINTS + i = xs.length := by
          simp only [MAX_POINTS, List.length_append, List.length_cons, List.length_nil]
          omega
        rw [hidx, getD_append_self]
        have hi2 : i = (b.push x).size - 1 := by rw [hS']; omega
        rw [hi2]
        exact push_newest b x hh300 hs300
      · rcases Nat.lt_or_ge b.size 300 with hnf | hf
        · have hLlt : xs.length < 300 := by
            rw [hsz] at hnf
            simp only [MAX_POINTS] at hnf
            omega
          have hii : i < b.size := by
            rw [hsz]
            simp only [MAX_POINTS]
            omega
          rw [push_old_notfull b x hh300 hnf i hii]
          rw [hc i (by simp only [MAX_POINTS]; omega)]
          have hidx1 : xs.length - min xs.length MAX_POINTS + i = i := by
            simp only [MAX_POINTS]
            omega
          have hidx2 : (xs ++ [x]).length - min (xs ++ [x]).length MAX_POINTS + i = i := by
            simp only [MAX_POINTS, List.length_append, List.length_cons, List.length_nil]
            omega
          rw [hidx1, hidx2, getD_append_left]
          omega
        · have hf' : b.size = 300 := by omega
          have hLge : 300 ≤ xs.length := by
            rw [hsz] at hf'
            simp only [MAX_POINTS] at hf'
            omega
          have hi1 : i + 1 < 300 := by omega
          rw [push_old_full b x hh300 hf' i hi1]
          rw [hc (i + 1) (by simp only [MAX_POINTS]; omega)]
          have hidx1 : xs.length - min xs.length MAX_POINTS + (i + 1) = xs.length - 300 + i + 1 := by
            simp only [MAX_POINTS]
            omega
          have hidx2 : (xs ++ [x]).length - min (xs ++ [x]).length MAX_POINTS + i
              = xs.length - 300 + i + 1 := by
            simp only [MAX_POINTS, List.length_append, List.length_cons, List.length_nil]
            omega
          rw [hidx1, hidx2, getD_append_left]
          omega

theorem pushList_atIdx (b0 : CircularBuffer) (h0 : b0.head = 0) (hs0 : b0.size = 0)
    (xs : List DataPoint) (i : Nat) (hi : i < min xs.length MAX_POINTS) :
    (pushList b0 xs).atIdx i
      = some (xs.getD (xs.length - min xs.length MAX_POINTS + i) default) := by
  obtain ⟨hh, hsz, hc⟩ := pushList_spec b0 h0 hs0 xs
  rw [CircularBuffer.atIdx, if_neg (by rw [hsz]; omega)]
  rw [hc i hi]

theorem get?_eq_some_getD {α} (d : α) :
    ∀ (l : List α) (k : Nat), k < l.length → l.get? k = some (l.getD k d) := by
  intro l
  induction l with
  | nil => intro k h; simp at h
  | cons a t ih =>
    intro k h
    cases k with
    | zero => rfl
    | succ m => exact ih m (by simpa using h)

theorem range_map_getD {α} (d : α) :
    ∀ l : List α, (List.range l.length).map (fun i => l.getD i d) = l := by
  intro l
  induction l with
  | nil => rfl
  | cons a t ih =>
    rw [List.length_cons, List.range_succ_eq_map]
    rw [List.map_cons, List.map_map]
    show a :: (List.range t.length).map (fun i => t.getD i d) = a :: t
    rw [ih]

theorem filterMap_map_all {α β} (f : α → β) (g : β → Option α) :
    ∀ l : List α, (∀ x ∈ l, g (f x) = some x) → (l.map f).filterMap g = l := by
  intro l
  induction l with
  | nil => intro _; rfl
  | cons a t ih =>
    intro h
    simp only [List.map_cons, List.filterMap_cons, h a (by simp)]
    rw [ih (fun x hx => h x (by simp [hx]))]

theorem load_foldl (delim : Char) (now : Int) :
    ∀ (lines : List (List Char)) (b1 : CircularBuffer) (n : Nat),
      lines.foldl (fun acc line =>
        match parse_line delim now line with
        | some d => (acc.1.push d, acc.2)
        | none => (acc.1, acc.2 + 1)) (b1, n)
      = (pushList b1 (lines.filterMap (parse_line delim now)),
         n + (lines.filter (fun l => (parse_line delim now l).isNone)).length) := by
  intro lines
  induction lines with
  | nil => intro b1 n; simp [pushList]
  | cons l t ih =>
    intro b1 n
    cases hl : parse_line delim now l with
    | some d =>
      simp only [List.foldl_cons, hl]
      rw [ih (b1.push d) n]
      simp [List.filterMap_cons, List.filter_cons, hl, pushList]
    | none =>
      simp only [List.foldl_cons, hl]
      rw [ih b1 (n + 1)]
      simp [List.filterMap_cons, List.filter_cons, hl]
      omega

theorem load_data_eq (delim : Char) (now : Int) (b : CircularBuffer)
    (lines : List (List Char)) :
    load_data delim now b lines
      = (pushList b.clear (lines.filterMap (parse_line delim now)),
         (lines.filter (fun l => (parse_line delim now l).isNone)).length,
         decide (0 < (pushList b.clear (lines.filterMap (parse_line delim now))).get_size)) := by
  rw [load_data, load_foldl]
  simp

/-! ### Claim theorems -/

/-- C1: for every push sequence longer than the capacity N = 300, the
buffer's size is exactly 300 and logical index `i` reads the
`(push_count − 300 + i)`-th pushed sample (0-indexed); in particular
logical index 0 is always the oldest retained sample. -/
theorem c1_oldest_retained (xs : List DataPoint) (h : MAX_POINTS < xs.length) :
    (pushList CircularBuffer.empty xs).get_size = MAX_POINTS ∧
    ∀ i, i < MAX_POINTS →
      (pushList CircularBuffer.empty xs).atIdx i = xs.get? (xs.length - MAX_POINTS + i) := by
  obtain ⟨hh, hsz, hc⟩ := pushList_spec CircularBuffer.empty rfl rfl xs
  have hmin : min xs.length MAX_POINTS = MAX_POINTS := by omega
  constructor
  · rw [CircularBuffer.get_size, hsz, hmin]
  · intro i hi
    rw [pushList_atIdx CircularBuffer.empty rfl rfl xs i (by omega)]
    rw [hmin]
    rw [get?_eq_some_getD default xs _ (by simp only [MAX_POINTS] at *; omega)]

set_option maxRecDepth 20000 in
/-- C1 witness: after 301 pushes, `size` is 300 and logical index 0 is the
sample pushed second (the 1st in 0-indexed push order). -/
theorem c1_oldest_retained_witness :
    (pushList CircularBuffer.empty c1wList).get_size = 300 ∧
    (pushList CircularBuffer.empty c1wList).atIdx 0 = some ⟨1, 400, 1⟩ := by
  have h := c1_oldest_retained c1wList (by decide)
  refine ⟨h.1, ?_⟩
  rw [h.2 0 (by decide)]
  with_unfolding_all decide

/-- C5 counterexample: a buffer holding one sample does not fail on
`at(1)` even though `1 ≥ size()`: `operator[]` only checks for emptiness,
so the claimed `OutOfRange` failure for `logical_index ≥ size()` does not
happen. -/
theorem c5_no_oob_check : c5buf.get_size = 1 ∧ (c5buf.atIdx 1).isSome = true := by
  decide

/-- C5 (amended): `at` fails exactly when the buffer is empty (no
`index ≥ size` check is performed); for `logical_index < size()` it returns
the sample at that logical position, 0 being the oldest retained. -/
theorem c5_at_amended (xs : List DataPoint) (i : Nat) :
    ((pushList CircularBuffer.empty xs).atIdx i = none ↔
      (pushList CircularBuffer.empty xs).get_size = 0) ∧
    (i < (pushList CircularBuffer.empty xs).get_size →
      (pushList CircularBuffer.empty xs).atIdx i
        = xs.get? (xs.length - (pushList CircularBuffer.empty xs).get_size + i)) := by
  obtain ⟨hh, hsz, hc⟩ := pushList_spec CircularBuffer.empty rfl rfl xs
  constructor
  · by_cases hz : (pushList CircularBuffer.empty xs).size = 0
    · simp [CircularBuffer.atIdx, CircularBuffer.get_size, hz]
    · simp [CircularBuffer.atIdx, CircularBuffer.get_size, hz]
  · intro hi
    rw [CircularBuffer.get_size] at hi
    rw [pushList_atIdx CircularBuffer.empty rfl rfl xs i (by rw [hsz] at hi; exact hi)]
    rw [CircularBuffer.get_size, hsz]
    rw [get?_eq_some_getD default xs _ (by rw [hsz] at hi; simp only [MAX_POINTS] at *; omega)]

/-- C5 witness: on a one-sample buffer, `at` does not return `none` (the
buffer is non-empty) and `at(0)` is that sample. -/
theorem c5_at_amended_witness :
    (c5buf.atIdx 0 = none ↔ c5buf.get_size = 0) ∧ c5buf.atIdx 0 = some ⟨1, 400, 3⟩ := by
  have h := c5_at_amended [⟨1, 400, 3⟩] 0
  exact ⟨h.1, (h.2 (by decide)).trans (by with_unfolding_all decide)⟩

/-- Two samples agree once the numerators and denominators of their rational
fields and their timestamps agree. -/
theorem dataPoint_eq_of_fields (d e : DataPoint)
    (h1 : d.temperature.num = e.temperature.num) (h2 : d.temperature.den = e.temperature.den)
    (h3 : d.pressure.num = e.pressure.num) (h4 : d.pressure.den = e.pressure.den)
    (h5 : d.timestamp = e.timestamp) : d = e := by
  cases d; cases e
  simp only [DataPoint.mk.injEq]
  exact ⟨Rat.ext h1 h2, Rat.ext h3 h4, h5⟩

set_option maxRecDepth 20000 in
/-- C2 counterexample: the in-range temperature 45.67891 (seven significant
digits, as a float value would be after reading `Temp: 45.67891`) is saved
by the default-precision stream formatting as `45.6789`, so save followed
by load yields the sample ⟨45.6789, 990, 100⟩ — a different value (off by
exactly 1/100000), refuting the field-for-field round trip as claimed. -/
theorem c2_sixdigit_loss :
    (load_data ',' 200 CircularBuffer.empty
        (save_data ',' (pushList CircularBuffer.empty c2lossList))).1.atIdx 0
      = some ⟨45.6789, 990, 100⟩ ∧
    decide ((45.6789 : Rat) = (45.67891 : Rat)) = false ∧
    (45.67891 : Rat) = 45.6789 + 1 / 100000 := by
  refine ⟨?_, ?_, Rat.ext (by with_unfolding_all decide) (by with_unfolding_all decide)⟩
  · have hs : ((load_data ',' 200 CircularBuffer.empty
        (save_data ',' (pushList CircularBuffer.empty c2lossList))).1.atIdx 0).isSome = true := by
      with_unfolding_all decide
    have hopt : (load_data ',' 200 CircularBuffer.empty
        (save_data ',' (pushList CircularBuffer.empty c2lossList))).1.atIdx 0
        = some (((load_data ',' 200 CircularBuffer.empty
            (save_data ',' (pushList CircularBuffer.empty c2lossList))).1.atIdx 0).getD
          ⟨0, 0, 0⟩) := by
      cases h : (load_data ',' 200 CircularBuffer.empty
          (save_data ',' (pushList CircularBuffer.empty c2lossList))).1.atIdx 0 with
      | none => rw [h] at hs; cases hs
      | some d => rfl
    rw [hopt]
    congr 1
    apply dataPoint_eq_of_fields <;> with_unfolding_all decide
  · with_unfolding_all decide

/-- C2 (amended): `save_data` writes floats with the stream's default
6-significant-digit precision, so the round trip reproduces each sample
with its fields replaced by their 6-significant-digit rendering; it is
exact, field for field, precisely for buffers (of at most N in-range
samples with positive non-future timestamps) whose values are unchanged by
that formatting (`sixRepOk`, and decimally representable, with a delimiter
the text format can carry — the default `','` qualifies). -/
theorem c2_save_load_roundtrip (delim : Char) (now : Int) (ds : List DataPoint)
    (hdelim : delimOk delim) (hlen : ds.length ≤ MAX_POINTS)
    (hvals : ∀ d ∈ ds, -40 ≤ d.temperature ∧ d.temperature ≤ 85 ∧ 300 ≤ d.pressure ∧
      d.pressure ≤ 1100 ∧ 0 < d.timestamp ∧ d.timestamp ≤ now ∧
      isDecimalRat d.temperature ∧ isDecimalRat d.pressure ∧
      sixRepOk d.temperature ∧ sixRepOk d.pressure) :
    (load_data delim now CircularBuffer.empty
        (save_data delim (pushList CircularBuffer.empty ds))).1.get_size = ds.length ∧
    ∀ i, i < ds.length →
      (load_data delim now CircularBuffer.empty
          (save_data delim (pushList CircularBuffer.empty ds))).1.atIdx i = ds.get? i := by
  obtain ⟨hh, hsz, hc⟩ := pushList_spec CircularBuffer.empty rfl rfl ds
  have hmin : min ds.length MAX_POINTS = ds.length := by omega
  have hsave : save_data delim (pushList CircularBuffer.empty ds)
      = ds.map (save_line delim) := by
    rw [save_data]
    rw [show (pushList CircularBuffer.empty ds).get_size = ds.length from by
      rw [CircularBuffer.get_size, hsz, hmin]]
    have hmaps : ∀ i ∈ List.range ds.length,
        save_line delim ((pushList CircularBuffer.empty ds).buffer
          ((pushList CircularBuffer.empty ds).phys i))
        = save_line delim (ds.getD i default) := by
      intro i hi
      rw [List.mem_range] at hi
      rw [hc i (by omega)]
      rw [show ds.length - min ds.length MAX_POINTS + i = i from by omega]
    rw [List.map_congr_left hmaps]
    rw [show (fun i => save_line delim (ds.getD i default))
        = (save_line delim) ∘ (fun i => ds.getD i default) from rfl]
    rw [← List.map_map, range_map_getD]
  have hacc : (ds.map (save_line delim)).filterMap (parse_line delim now) = ds := by
    refine filterMap_map_all (save_line delim) (parse_line delim now) ds ?_
    intro d hd
    obtain ⟨v1, v2, v3, v4, v5, v6, v7, v8, v9, v10⟩ := hvals d hd
    exact parse_line_save_line delim now d hdelim v1 v2 v3 v4 v5 v6 v7 v8 v9 v10
  have hres : (load_data delim now CircularBuffer.empty (ds.map (save_line delim))).1
      = pushList CircularBuffer.empty.clear ds := by
    rw [load_data_eq, hacc]
  obtain ⟨hh2, hsz2, hc2⟩ := pushList_spec CircularBuffer.empty.clear rfl rfl ds
  constructor
  · rw [hsave, hres, CircularBuffer.get_size, hsz2, hmin]
  · intro i hi
    rw [hsave, hres]
    rw [pushList_atIdx CircularBuffer.empty.clear rfl rfl ds i (by omega)]
    rw [show ds.length - min ds.length MAX_POINTS + i = i from by omega]
    rw [get?_eq_some_getD default ds i hi]

/-- C2 witness: a one-sample buffer (23.5 °C, 990 hPa, t = 100) saved with
the default `','` delimiter and loaded back at time 200 reproduces exactly
that sample. -/
theorem c2_save_load_roundtrip_witness :
    (load_data ',' 200 CircularBuffer.empty
        (save_data ',' (pushList CircularBuffer.empty c2List))).1.get_size = 1 ∧
    (load_data ',' 200 CircularBuffer.empty
        (save_data ',' (pushList CircularBuffer.empty c2List))).1.atIdx 0
      = some ⟨23.5, 990, 100⟩ := by
  have h := c2_save_load_roundtrip ',' 200 c2List
    (by refine ⟨?_, ?_, ?_, ?_, ?_, ?_, ?_⟩ <;> decide)
    (by decide)
    (by
      intro d hd
      simp only [c2List, List.mem_singleton] at hd
      subst hd
      refine ⟨by with_unfolding_all decide, by with_unfolding_all decide,
        by with_unfolding_all decide, by with_unfolding_all decide,
        by with_unfolding_all decide, by with_unfolding_all decide,
        ?_, ?_, ?_, ?_⟩
      · unfold isDecimalRat
        with_unfolding_all decide
      · unfold isDecimalRat
        with_unfolding_all decide
      · unfold sixRepOk
        with_unfolding_all decide
      · unfold sixRepOk
        with_unfolding_all decide)
  refine ⟨h.1, ?_⟩
  rw [h.2 0 (by decide)]
  rfl


/-! ### Smoothing cache -/

theorem cacheOK_push (b : CircularBuffer) (p : DataPoint) : cacheOK (b.push p) := by
  intro j hj
  exact ⟨Or.inl rfl, Or.inl rfl⟩

theorem windowIdxs_length_pos (b : CircularBuffer) (i w : Nat) (hi : i < b.size) :
    0 < (b.windowIdxs i w).length := by
  rw [CircularBuffer.windowIdxs, List.length_range']
  omega

theorem smooth_value_eq_formula (b : CircularBuffer) (k : Bool) (i : Nat)
    (hok : cacheOK b) (hi : i < b.size) :
    (b.smooth_value k i 5).1 = b.smoothFormula k i 5 := by
  have hnz : ¬ b.size = 0 := by omega
  have hidx : min i (b.size - 1) = i := by omega
  have hpos := windowIdxs_length_pos b i 5 hi
  rw [CircularBuffer.smooth_value]
  rw [if_neg hnz]
  simp only [hidx]
  cases k with
  | true =>
    by_cases hz : b.temp_cache i = 0
    · simp only [if_pos trivial, hz, if_pos rfl, if_pos hpos]
      rfl
    · simp only [if_pos trivial, if_neg hz]
      rcases (hok i hi).1 with h0 | h0
      · exact absurd h0 hz
      · exact h0
  | false =>
    by_cases hz : b.press_cache i = 0
    · simp only [Bool.false_eq_true, if_false, hz, if_pos rfl, if_pos hpos]
      rfl
    · simp only [Bool.false_eq_true, if_false, if_neg hz]
      rcases (hok i hi).2 with h0 | h0
      · exact absurd h0 hz
      · exact h0

/-- C3: with the cache in any state the program can reach, the smoothed
value at a valid logical index equals the arithmetic mean of the raw field
values over the window clipped at the buffer bounds, and after the cache
invalidation done by a `push` the same formula holds over the updated
buffer contents. -/
theorem c3_smoothed_mean (b : CircularBuffer) (kind : Bool) (i : Nat)
    (hok : cacheOK b) (hi : i < b.size) :
    (b.smooth_value kind i 5).1
      = ((b.windowIdxs i 5).map (b.rawVal kind)).sum / ((b.windowIdxs i 5).length : Rat) ∧
    ∀ (p : DataPoint) (j : Nat), j < (b.push p).size →
      ((b.push p).smooth_value kind j 5).1
        = (((b.push p).windowIdxs j 5).map ((b.push p).rawVal kind)).sum
            / (((b.push p).windowIdxs j 5).length : Rat) := by
  constructor
  · rw [smooth_value_eq_formula b kind i hok hi]
    rfl
  · intro p j hj
    rw [smooth_value_eq_formula (b.push p) kind j (cacheOK_push b p) hj]
    rfl

/-- C3 witness: with three samples of temperatures 1, 2, 6, the smoothed
temperature at logical index 1 is their mean 3. -/
theorem c3_smoothed_mean_witness :
    ((pushList CircularBuffer.empty c3List).smooth_value true 1 5).1 = 3 := by
  have hok : cacheOK (pushList CircularBuffer.empty c3List) := by
    intro j hj
    exact ⟨Or.inl rfl, Or.inl rfl⟩
  have h := c3_smoothed_mean (pushList CircularBuffer.empty c3List) true 1 hok (by decide)
  rw [h.1]
  with_unfolding_all decide

/-- C10: `smooth_value` is total: it returns 0 on an empty buffer, and for
any logical index at or beyond `size` it clamps the index to `size - 1`, so
it returns the smoothed value of the newest retained sample instead of
failing (for any window). -/
theorem c10_smooth_total_clamp (b : CircularBuffer) (kind : Bool) (i w : Nat) :
    (b.size = 0 → (b.smooth_value kind i w).1 = 0) ∧
    (b.size ≠ 0 → b.size ≤ i →
      b.smooth_value kind i w = b.smooth_value kind (b.size - 1) w) := by
  constructor
  · intro hz
    rw [CircularBuffer.smooth_value, if_pos hz]
  · intro hnz hle
    have hmin : min i (b.size - 1) = b.size - 1 := by omega
    have hmin2 : min (b.size - 1) (b.size - 1) = b.size - 1 := by omega
    simp only [CircularBuffer.smooth_value, hmin, hmin2]

/-- C10 witness: on the empty buffer `smooth_value` returns 0 at an
out-of-range index, and on a 3-sample buffer index 5 is served as index 2
(the newest sample). -/
theorem c10_smooth_total_clamp_witness :
    (CircularBuffer.empty.smooth_value true 7 5).1 = 0 ∧
    (pushList CircularBuffer.empty c3List).smooth_value true 5 5
      = (pushList CircularBuffer.empty c3List).smooth_value true 2 5 := by
  constructor
  · exact (c10_smooth_total_clamp CircularBuffer.empty true 7 5).1 rfl
  · have h := (c10_smooth_total_clamp (pushList CircularBuffer.empty c3List) true 5 5).2
      (by decide) (by decide)
    have hsz : (pushList CircularBuffer.empty c3List).size - 1 = 2 := by decide
    rw [h, hsz]

/-! ### Serial line splitting and per-chunk sample assembly -/

theorem splitLines_join : ∀ l : List Char,
    ((splitLines l).1.map (fun s => s ++ ['\n'])).join ++ (splitLines l).2 = l := by
  intro l
  induction l with
  | nil => rfl
  | cons c t ih =>
    simp only [splitLines]
    split
    · rename_i hc
      subst hc
      simp only [List.map_cons, List.join_cons, List.nil_append, List.cons_append,
        List.append_assoc]
      rw [ih]
    · cases hsp : (splitLines t).1 with
      | nil =>
        rw [hsp] at ih
        simp only [List.map_nil, List.join_nil, List.nil_append] at ih
        simp only [hsp, List.map_nil, List.join_nil, List.nil_append]
        rw [ih]
      | cons l0 ls =>
        rw [hsp] at ih
        simp only [hsp]
        simp only [List.map_cons, List.join_cons, List.cons_append, List.append_assoc] at ih ⊢
        rw [ih]

theorem splitLines_rem : ∀ l : List Char, ∀ c ∈ (splitLines l).2, c ≠ '\n' := by
  intro l
  induction l with
  | nil => intro c hc; simp [splitLines] at hc
  | cons a t ih =>
    intro c hc
    simp only [splitLines] at hc
    split at hc
    · exact ih c hc
    · rename_i ha
      cases hsp : (splitLines t).1 with
      | nil =>
        rw [hsp] at hc
        simp only [List.mem_cons] at hc
        rcases hc with rfl | hc
        · exact ha
        · exact ih c hc
      | cons l0 ls =>
        rw [hsp] at hc
        exact ih c hc

theorem process_line_got_temp (l : List Char) (acc : LineAcc) :
    (process_line l acc).got_temp = (acc.got_temp || line_gives_temp l) := by
  simp only [process_line, line_gives_temp]
  cases h1 : (if hasSubstr "Temp".toList l then parse_value l else none) with
  | some v =>
    by_cases hr : tempRangeOk v
    · simp [hr]
    · simp [hr]
  | none =>
    cases h2 : (if hasSubstr "Pres".toList l then parse_value l else none) with
    | some v =>
      by_cases hr : pressRangeOk v
      · simp [hr]
      · simp [hr]
    | none => simp

theorem process_line_got_press (l : List Char) (acc : LineAcc) :
    (process_line l acc).got_press = (acc.got_press || line_gives_press l) := by
  simp only [process_line, line_gives_press]
  cases h1 : (if hasSubstr "Temp".toList l then parse_value l else none) with
  | some v =>
    by_cases hr : tempRangeOk v
    · simp [hr]
    · simp [hr]
  | none =>
    cases h2 : (if hasSubstr "Pres".toList l then parse_value l else none) with
    | some v =>
      by_cases hr : pressRangeOk v
      · simp [hr]
      · simp [hr]
    | none => simp

theorem foldl_got_temp : ∀ (lines : List (List Char)) (acc : LineAcc),
    (lines.foldl (fun a l => process_line l a) acc).got_temp
      = (acc.got_temp || lines.any line_gives_temp) := by
  intro lines
  induction lines with
  | nil => intro acc; simp
  | cons l t ih =>
    intro acc
    simp only [List.foldl_cons, List.any_cons]
    rw [ih (process_line l acc), process_line_got_temp]
    cases acc.got_temp <;> cases line_gives_temp l <;> simp

theorem foldl_got_press : ∀ (lines : List (List Char)) (acc : LineAcc),
    (lines.foldl (fun a l => process_line l a) acc).got_press
      = (acc.got_press || lines.any line_gives_press) := by
  intro lines
  induction lines with
  | nil => intro acc; simp
  | cons l t ih =>
    intro acc
    simp only [List.foldl_cons, List.any_cons]
    rw [ih (process_line l acc), process_line_got_press]
    cases acc.got_press <;> cases line_gives_press l <;> simp

/-- C4: in one serial read with at least one byte delivered, exactly the
newline-terminated lines of pending-plus-delivered input are consumed (the
remainder, which holds no newline, is retained as the new pending buffer),
and exactly one sample is pushed to the history if and only if at least one
completed line yields a valid in-range temperature and at least one yields a
valid in-range pressure; otherwise the history is unchanged. -/
theorem c4_chunk_sample (b : CircularBuffer) (pending avail : List Char) (now : Int)
    (hne : avail.take (BUFFER_SIZE - pending.length - 1) ≠ []) :
    (read_serial b pending avail now).pending
        = (splitLines (pending ++ avail.take (BUFFER_SIZE - pending.length - 1))).2 ∧
    (∀ c ∈ (read_serial b pending avail now).pending, c ≠ '\n') ∧
    ((splitLines (pending ++ avail.take (BUFFER_SIZE - pending.length - 1))).1.map
        (fun s => s ++ ['\n'])).join ++ (read_serial b pending avail now).pending
        = pending ++ avail.take (BUFFER_SIZE - pending.length - 1) ∧
    ((read_serial b pending avail now).pushed.isSome = true ↔
      ((splitLines (pending ++ avail.take (BUFFER_SIZE - pending.length - 1))).1.any
          line_gives_temp = true ∧
       (splitLines (pending ++ avail.take (BUFFER_SIZE - pending.length - 1))).1.any
          line_gives_press = true)) ∧
    (∀ d, (read_serial b pending avail now).pushed = some d
        → (read_serial b pending avail now).history = b.push d) ∧
    ((read_serial b pending avail now).pushed = none
        → (read_serial b pending avail now).history = b) := by
  have hlen : ¬ ((avail.take (BUFFER_SIZE - pending.length - 1)).length = 0) := by
    simpa [List.length_eq_zero] using hne
  have htmp := foldl_got_temp
    (splitLines (pending ++ avail.take (BUFFER_SIZE - pending.length - 1))).1
    ⟨0, 0, false, false, 0⟩
  have hprs := foldl_got_press
    (splitLines (pending ++ avail.take (BUFFER_SIZE - pending.length - 1))).1
    ⟨0, 0, false, false, 0⟩
  simp only [Bool.false_or] at htmp hprs
  simp only [read_serial, if_neg hlen]
  by_cases hflag :
      (((splitLines (pending ++ avail.take (BUFFER_SIZE - pending.length - 1))).1.foldl
        (fun a l => process_line l a) ⟨0, 0, false, false, 0⟩).got_temp
      && ((splitLines (pending ++ avail.take (BUFFER_SIZE - pending.length - 1))).1.foldl
        (fun a l => process_line l a) ⟨0, 0, false, false, 0⟩).got_press) = true
  · rw [if_pos hflag]
    rw [Bool.and_eq_true] at hflag
    refine ⟨rfl, splitLines_rem _, splitLines_join _, ?_, ?_, ?_⟩
    · simp only [Option.isSome_some, true_iff]
      exact ⟨htmp ▸ hflag.1, hprs ▸ hflag.2⟩
    · intro d hd
      simp only [Option.some_inj] at hd
      rw [← hd]
    · intro hd
      exact absurd hd (by simp)
  · rw [if_neg hflag]
    rw [Bool.and_eq_true] at hflag
    refine ⟨rfl, splitLines_rem _, splitLines_join _, ?_, ?_, ?_⟩
    · simp only [Option.isSome_none, Bool.false_eq_true, false_iff]
      intro hcontra
      exact hflag ⟨htmp ▸ hcontra.1, hprs ▸ hcontra.2⟩
    · intro d hd
      exact absurd hd (by simp)
    · intro _
      rfl

/-- C4 witness: the specification's example chunk `"Temp: 23.5\nPres: 990.0\n"`
read into an empty pending buffer yields a pushed sample, while the chunk's
first line alone yields none. -/
theorem c4_chunk_sample_witness :
    ((read_serial CircularBuffer.empty [] c4chunk 100).pushed).isSome = true ∧
    ((read_serial CircularBuffer.empty [] "Temp: 23.5\n".toList 100).pushed).isSome = false := by
  constructor
  · rw [(c4_chunk_sample CircularBuffer.empty [] c4chunk 100 (by with_unfolding_all decide)).2.2.2.1]
    constructor <;> with_unfolding_all decide
  · have h := (c4_chunk_sample CircularBuffer.empty [] "Temp: 23.5\n".toList 100
      (by with_unfolding_all decide)).2.2.2.1
    rw [show ((read_serial CircularBuffer.empty [] "Temp: 23.5\n".toList 100).pushed).isSome = false
        ↔ ¬ ((read_serial CircularBuffer.empty [] "Temp: 23.5\n".toList 100).pushed).isSome = true
      from by simp]
    rw [h]
    intro hcontra
    have := hcontra.2
    revert this
    with_unfolding_all decide

/-- C8: when the pending serial buffer already holds `BUFFER_SIZE - 1 = 255`
bytes (and thus no newline has been seen), `read` is asked for 0 bytes, so
the call returns with the pending buffer retained, no sample, and no error
report — there is no `FrameTooLong` failure and the pending buffer is never
dropped, so line assembly never recovers. -/
theorem c8_overflow_stall (b : CircularBuffer) (pending avail : List Char) (now : Int)
    (h : pending.length = BUFFER_SIZE - 1) :
    read_serial b pending avail now = ⟨b, pending, none, 0⟩ := by
  have h0 : BUFFER_SIZE - pending.length - 1 = 0 := by
    rw [h]
    simp only [BUFFER_SIZE]
  simp only [read_serial, h0, List.take_zero, List.length_nil]
  rw [if_true]

/-- C8 witness: with 255 pending non-newline bytes and a newline available
from the device, nothing is read, reported, or dropped. -/
theorem c8_overflow_stall_witness :
    read_serial CircularBuffer.empty c8pending ['\n'] 0
      = ⟨CircularBuffer.empty, c8pending, none, 0⟩ :=
  c8_overflow_stall CircularBuffer.empty c8pending ['\n'] 0
    (by simp only [c8pending, List.length_replicate, BUFFER_SIZE])

/-! ### Reconnection policy -/

/-- C6: `try_reconnect` never attempts while connected, while the 10-attempt
budget is exhausted, or within the 5-second cool-down (the state is returned
untouched, so after 10 consecutive failures later polls do nothing until
some external event resets the counter); any state change therefore implies
disconnected, budget left, and cool-down elapsed; an attempt records its
time; and a successful open at either baud rate reconnects, resets the
attempt counter to 0 and clears both error lists. -/
theorem c6_reconnect_policy (st : ReconnectState) (now : Int) (port : Option (List Char))
    (openOk : Nat → Bool) :
    (st.fd_connected = false → max_reconnect_attempts ≤ st.reconnect_attempts →
      try_reconnect st now port openOk = st) ∧
    (st.fd_connected = false → now - st.last_reconnect_attempt < RECONNECT_TIMEOUT →
      try_reconnect st now port openOk = st) ∧
    (try_reconnect st now port openOk ≠ st →
      st.fd_connected = false ∧ st.reconnect_attempts < max_reconnect_attempts ∧
      RECONNECT_TIMEOUT ≤ now - st.last_reconnect_attempt) ∧
    (st.fd_connected = false → st.reconnect_attempts < max_reconnect_attempts →
      RECONNECT_TIMEOUT ≤ now - st.last_reconnect_attempt →
      (try_reconnect st now port openOk).last_reconnect_attempt = now) ∧
    (st.fd_connected = false → st.reconnect_attempts < max_reconnect_attempts →
      RECONNECT_TIMEOUT ≤ now - st.last_reconnect_attempt →
      (openOk 9600 = true ∨ openOk 115200 = true) → ∀ p, port = some p →
      (try_reconnect st now port openOk).fd_connected = true ∧
      (try_reconnect st now port openOk).reconnect_attempts = 0 ∧
      (try_reconnect st now port openOk).error_messages = [] ∧
      (try_reconnect st now port openOk).persistent_errors = []) := by
  refine ⟨?_, ?_, ?_, ?_, ?_⟩
  · intro _ h2
    rw [try_reconnect, if_pos (Or.inr h2)]
  · intro _ h2
    by_cases hx : (st.fd_connected = true ∨ max_reconnect_attempts ≤ st.reconnect_attempts)
    · rw [try_reconnect, if_pos hx]
    · rw [try_reconnect, if_neg hx, if_pos h2]
  · intro hne
    by_cases h1 : (st.fd_connected = true ∨ max_reconnect_attempts ≤ st.reconnect_attempts)
    · exact absurd (by rw [try_reconnect, if_pos h1]) hne
    · by_cases h2 : now - st.last_reconnect_attempt < RECONNECT_TIMEOUT
      · exact absurd (by rw [try_reconnect, if_neg h1, if_pos h2]) hne
      · have h1a := (not_or.mp h1).1
        have h1b := (not_or.mp h1).2
        refine ⟨?_, by omega, by omega⟩
        cases hq : st.fd_connected
        · rfl
        · exact absurd hq h1a
  · intro hfd hatt hcool
    have hc1 : ¬ (st.fd_connected = true ∨ max_reconnect_attempts ≤ st.reconnect_attempts) := by
      rw [hfd]
      simp only [Bool.false_eq_true, false_or]
      omega
    have hc2 : ¬ (now - st.last_reconnect_attempt < RECONNECT_TIMEOUT) := by omega
    cases port with
    | none => simp [try_reconnect, if_neg hc1, if_neg hc2, ReconnectState.add_error]
    | some p =>
      by_cases ho1 : openOk 9600 = true
      · simp [try_reconnect, if_neg hc1, if_neg hc2, ho1, ReconnectState.add_error]
      · have ho1f : openOk 9600 = false := by
          cases hq : openOk 9600
          · rfl
          · exact absurd hq ho1
        by_cases ho2 : openOk 115200 = true
        · simp [try_reconnect, if_neg hc1, if_neg hc2, ho1f, ho2, ReconnectState.add_error]
        · have ho2f : openOk 115200 = false := by
            cases hq : openOk 115200
            · rfl
            · exact absurd hq ho2
          simp [try_reconnect, if_neg hc1, if_neg hc2, ho1f, ho2f, ReconnectState.add_error]
  · intro hfd hatt hcool hor p hp
    subst hp
    have hc1 : ¬ (st.fd_connected = true ∨ max_reconnect_attempts ≤ st.reconnect_attempts) := by
      rw [hfd]
      simp only [Bool.false_eq_true, false_or]
      omega
    have hc2 : ¬ (now - st.last_reconnect_attempt < RECONNECT_TIMEOUT) := by omega
    by_cases ho1 : openOk 9600 = true
    · refine ⟨?_, ?_, ?_, ?_⟩ <;>
        simp [try_reconnect, if_neg hc1, if_neg hc2, ho1, ReconnectState.add_error]
    · have ho1f : openOk 9600 = false := by
        cases hq : openOk 9600
        · rfl
        · exact absurd hq ho1
      have ho2 : openOk 115200 = true := by
        rcases hor with h | h
        · exact absurd h ho1
        · exact h
      refine ⟨?_, ?_, ?_, ?_⟩ <;>
        simp [try_reconnect, if_neg hc1, if_neg hc2, ho1f, ho2, ReconnectState.add_error]

/-- C6 witness: with the budget exhausted a poll changes nothing (even with
a port present and a working open), and a ready disconnected state whose
open succeeds reconnects with the attempt counter reset and both error
lists cleared. -/
theorem c6_reconnect_policy_witness :
    try_reconnect c6spent 100 (some ['p']) (fun _ => true) = c6spent ∧
    (try_reconnect c6ready 100 (some ['p']) (fun _ => true)).reconnect_attempts = 0 ∧
    (try_reconnect c6ready 100 (some ['p']) (fun _ => true)).error_messages = [] ∧
    (try_reconnect c6ready 100 (some ['p']) (fun _ => true)).persistent_errors = [] := by
  have h1 := (c6_reconnect_policy c6spent 100 (some ['p']) (fun _ => true)).1 rfl (by decide)
  have h2 := (c6_reconnect_policy c6ready 100 (some ['p']) (fun _ => true)).2.2.2.2
    rfl (by decide) (by decide) (Or.inl rfl) ['p'] rfl
  exact ⟨h1, h2.2.1, h2.2.2.1, h2.2.2.2⟩

/-! ### Load-line validation -/

set_option maxRecDepth 100000 in
/-- C7 counterexample: with the configured delimiter `','`, the line
`20.0X500.0,100` is accepted by `load_data`'s parsing (the first delimiter
read, `X`, is overwritten by the second and never compared), while the
specification's reading, which requires both delimiter occurrences to match
`','`, rejects it. -/
theorem c7_first_delim_unchecked :
    parse_line ',' 1000 c7badLine = some ⟨20, 500, 100⟩ ∧
    parse_line_claim ',' 1000 c7badLine = none := by
  constructor <;> with_unfolding_all decide

/-- C7 (amended): `load_data` clears the buffer and pushes exactly the
accepted lines in file order (so accepted samples keep the relative order of
the valid lines); each rejected line adds one error report without aborting
the rest; the return value says whether at least one line was accepted;
and an accepted line's sample always satisfies the range checks
(-40 ≤ t ≤ 85, 300 ≤ p ≤ 1100) and has a positive timestamp not in the
future — but only the second delimiter occurrence is required to match the
configured one. -/
theorem c7_load_amended (delim : Char) (now : Int) (b : CircularBuffer)
    (lines : List (List Char)) :
    (load_data delim now b lines).1
        = pushList b.clear (lines.filterMap (parse_line delim now)) ∧
    (load_data delim now b lines).2.1
        = (lines.filter (fun l => (parse_line delim now l).isNone)).length ∧
    ((load_data delim now b lines).2.2 = true ↔
      lines.filterMap (parse_line delim now) ≠ []) ∧
    ∀ l d, parse_line delim now l = some d →
      -40 ≤ d.temperature ∧ d.temperature ≤ 85 ∧ 300 ≤ d.pressure ∧ d.pressure ≤ 1100 ∧
      0 < d.timestamp ∧ d.timestamp ≤ now := by
  refine ⟨by rw [load_data_eq], by rw [load_data_eq], ?_, ?_⟩
  · rw [load_data_eq]
    show decide (0 < (pushList b.clear (lines.filterMap (parse_line delim now))).get_size)
        = true ↔ _
    rw [decide_eq_true_eq]
    obtain ⟨hh, hsz, hc⟩ := pushList_spec b.clear rfl rfl (lines.filterMap (parse_line delim now))
    rw [CircularBuffer.get_size, hsz]
    constructor
    · intro h hnil
      rw [hnil] at h
      simp only [List.length_nil, Nat.zero_min, Nat.min_zero] at h
      omega
    · intro h
      have hp : 0 < (lines.filterMap (parse_line delim now)).length := List.length_pos.mpr h
      simp only [MAX_POINTS]
      omega
  · intro l d hl
    rw [parse_line] at hl
    cases h1 : parse_float l with
    | none => simp [h1] at hl
    | some v1 =>
      obtain ⟨t, r1⟩ := v1
      simp only [h1] at hl
      cases h2 : parse_char r1 with
      | none => simp [h2] at hl
      | some v2 =>
        obtain ⟨d1, r2⟩ := v2
        simp only [h2] at hl
        cases h3 : parse_float r2 with
        | none => simp [h3] at hl
        | some v3 =>
          obtain ⟨p, r3⟩ := v3
          simp only [h3] at hl
          cases h4 : parse_char r3 with
          | none => simp [h4] at hl
          | some v4 =>
            obtain ⟨d2, r4⟩ := v4
            simp only [h4] at hl
            cases h5 : parse_int r4 with
            | none => simp [h5] at hl
            | some v5 =>
              obtain ⟨ts, r5⟩ := v5
              simp only [h5] at hl
              by_cases hcond : (d2 = delim ∧ -40 ≤ t ∧ t ≤ 85 ∧ 300 ≤ p ∧ p ≤ 1100 ∧
                  0 < ts ∧ ts ≤ now)
              · rw [if_pos hcond] at hl
                obtain rfl := Option.some_inj.mp hl
                exact ⟨hcond.2.1, hcond.2.2.1, hcond.2.2.2.1, hcond.2.2.2.2.1,
                  hcond.2.2.2.2.2.1, hcond.2.2.2.2.2.2⟩
              · rw [if_neg hcond] at hl
                simp at hl

/-- C7 witness: loading a file consisting of one well-formed line reports
that at least one sample was loaded. -/
theorem c7_load_amended_witness :
    (load_data ',' 200 CircularBuffer.empty [c7goodLine]).2.2 = true := by
  have h := (c7_load_amended ',' 200 CircularBuffer.empty [c7goodLine]).2.2.1
  rw [h]
  with_unfolding_all decide

/-! ### Process exit codes -/

/-- C9 counterexample: a normal user-initiated quit (`q` key) is delivered
as the exception `"User quit"`, caught by `main`'s catch-all handler, so the
process exits with code 1, not the claimed 0. -/
theorem c9_quit_exits_one : main_exit (Except.ok ()) ['q'] = some 1 := rfl

/-- C9 (amended): the process exits 1 on an unrecoverable startup failure,
and also exits 1 on a user-initiated quit (quit is an exception caught by
the same handler); since `run` is an infinite loop that only terminates by
exception, exit code 0 is never produced. -/
theorem c9_exit_amended (startup : Except (List Char) Unit) (keys : List Char) :
    (main_exit startup keys = none ∨ main_exit startup keys = some 1) ∧
    (∀ e, startup = Except.error e → main_exit startup keys = some 1) := by
  constructor
  · cases startup with
    | error e => right; rfl
    | ok u =>
      cases u
      cases hp : process_keys keys with
      | error e => right; simp [main_exit, run_outcome, hp]
      | ok u2 => left; simp [main_exit, run_outcome, hp]
  · intro e he
    subst he
    rfl

/-- C9 witness: a startup failure (the X11 "Cannot open display" exception)
exits with code 1. -/
theorem c9_exit_amended_witness :
    main_exit (Except.error "Cannot open display".toList) [] = some 1 :=
  (c9_exit_amended (Except.error "Cannot open display".toList) []).2
    "Cannot open display".toList rfl
